import Mathlib

/-!
Verification of the git_calculator analytical core: the SQLite "lake"
(commits table, populate, delta / bucket / change-failure queries) and the
date-normalization utility, embedded shallowly from the Python/SQL sources.

Numeric model: SQL REAL arithmetic is modelled by exact rationals (ℚ).  All
arithmetic used inside definitions is written with kernel-computable wrappers
(`qAdd`, `qMul`, ... built on `mkRat`) so that every definition evaluates by
`decide`; bridge lemmas identify the wrappers with the field operations of ℚ.
-/

namespace GitCalc

/-! ### Kernel-computable rational arithmetic -/

/-- Addition on ℚ via `mkRat` (kernel-reducible, unlike `Rat.add`). -/
def qAdd (a b : ℚ) : ℚ := mkRat (a.num * b.den + b.num * a.den) (a.den * b.den)

/-- Multiplication on ℚ via `mkRat`. -/
def qMul (a b : ℚ) : ℚ := mkRat (a.num * b.num) (a.den * b.den)

/-- Negation on ℚ via `mkRat`. -/
def qNeg (a : ℚ) : ℚ := mkRat (-a.num) a.den

/-- Subtraction on ℚ via `mkRat`. -/
def qSub (a b : ℚ) : ℚ := qAdd a (qNeg b)

/-- Inverse on ℚ via `mkRat` (0 maps to 0, as in ℚ). -/
def qInv (a : ℚ) : ℚ :=
  mkRat (if a.num < 0 then -(a.den : ℤ) else (a.den : ℤ)) a.num.natAbs

/-- Division on ℚ via `mkRat` (division by 0 yields 0; the sources never
divide by zero where this is used). -/
def qDiv (a b : ℚ) : ℚ := qMul a (qInv b)

/-- Embedding of ℤ into ℚ via `mkRat`. -/
def qOfInt (z : ℤ) : ℚ := mkRat z 1

/-- Embedding of ℕ into ℚ via `mkRat`. -/
def qOfNat (n : ℕ) : ℚ := mkRat (n : ℤ) 1

/-- Sum of a list of rationals (SQL `SUM`). -/
def qSum (l : List ℚ) : ℚ := l.foldr qAdd 0

/-- SQL `MAX(a, b)` on rationals. -/
def qMax (a b : ℚ) : ℚ := if a ≤ b then b else a

theorem qAdd_eq (a b : ℚ) : qAdd a b = a + b := by
  have ha : ((a.den : ℚ)) ≠ 0 := Nat.cast_ne_zero.mpr a.den_nz
  have hb : ((b.den : ℚ)) ≠ 0 := Nat.cast_ne_zero.mpr b.den_nz
  rw [qAdd, Rat.mkRat_eq_div]
  push_cast
  conv_rhs => rw [← Rat.num_div_den a, ← Rat.num_div_den b]
  rw [div_add_div _ _ ha hb]
  ring_nf

theorem qMul_eq (a b : ℚ) : qMul a b = a * b := by
  rw [qMul, Rat.mkRat_eq_div]
  push_cast
  conv_rhs => rw [← Rat.num_div_den a, ← Rat.num_div_den b]
  rw [div_mul_div_comm]

theorem qNeg_eq (a : ℚ) : qNeg a = -a := by
  rw [qNeg, Rat.mkRat_eq_div]
  push_cast
  rw [neg_div, Rat.num_div_den]

theorem qSub_eq (a b : ℚ) : qSub a b = a - b := by
  rw [qSub, qAdd_eq, qNeg_eq, sub_eq_add_neg]

theorem qInv_eq (a : ℚ) : qInv a = a⁻¹ := by
  by_cases h : a = 0
  · subst h; rw [inv_zero]; decide
  · have hnum : a.num ≠ 0 := Rat.num_ne_zero.mpr h
    have hinv : a⁻¹ = (a.den : ℚ) / (a.num : ℚ) := by
      conv_lhs => rw [← Rat.num_div_den a]
      rw [inv_div]
    rw [hinv, qInv]
    rcases lt_or_gt_of_ne hnum with hlt | hgt
    · rw [if_pos hlt, Rat.mkRat_eq_div]
      have habs : ((a.num.natAbs : ℕ) : ℚ) = -(a.num : ℚ) := by
        rw [Int.cast_natAbs]
        exact_mod_cast abs_of_neg hlt
      rw [habs]
      push_cast
      rw [neg_div_neg_eq]
    · rw [if_neg (not_lt.mpr hgt.le), Rat.mkRat_eq_div]
      have habs : ((a.num.natAbs : ℕ) : ℚ) = (a.num : ℚ) := by
        rw [Int.cast_natAbs]
        exact_mod_cast abs_of_nonneg hgt.le
      rw [habs]
      push_cast
      rfl

theorem qDiv_eq (a b : ℚ) : qDiv a b = a / b := by
  rw [qDiv, qMul_eq, qInv_eq, div_eq_mul_inv]

theorem qOfInt_eq (z : ℤ) : qOfInt z = (z : ℚ) := by
  rw [qOfInt, Rat.mkRat_eq_div]
  push_cast
  rw [div_one]

theorem qOfNat_eq (n : ℕ) : qOfNat n = (n : ℚ) := by
  rw [qOfNat, Rat.mkRat_eq_div]
  push_cast
  rw [div_one]

theorem qSum_eq (l : List ℚ) : qSum l = l.sum := by
  induction l with
  | nil => rfl
  | cons x t ih => rw [qSum, List.foldr_cons, ← qSum, ih, qAdd_eq, List.sum_cons]

theorem qMax_eq (a b : ℚ) : qMax a b = max a b := by
  rw [qMax, max_def]

/-- `Rat.floor` (Batteries, kernel-computable) agrees with Mathlib's `⌊·⌋`. -/
theorem ratFloor_eq (q : ℚ) : q.floor = ⌊q⌋ := by
  rw [Rat.floor_def', ← Rat.floor_def]

/-- SQLite `ROUND(x)`-style rounding to the nearest integer, halves away from
zero (SQLite `ROUND` semantics). -/
def roundHalf (x : ℚ) : ℤ :=
  if 0 ≤ x then (qAdd x (mkRat 1 2)).floor else -(qAdd (qNeg x) (mkRat 1 2)).floor

theorem roundHalf_eq (x : ℚ) :
    roundHalf x = if 0 ≤ x then ⌊x + 1 / 2⌋ else -⌊-x + 1 / 2⌋ := by
  have hhalf : (mkRat 1 2 : ℚ) = 1 / 2 := by
    rw [Rat.mkRat_eq_div]; norm_num
  rw [roundHalf, ratFloor_eq, ratFloor_eq, qAdd_eq, qAdd_eq, qNeg_eq, hhalf]

/-- Rounding an integer changes nothing. -/
theorem roundHalf_intCast (k : ℤ) : roundHalf ((k : ℚ)) = k := by
  rw [roundHalf_eq]
  by_cases h : (0 : ℚ) ≤ (k : ℚ)
  · rw [if_pos h, Int.floor_int_add]
    norm_num
  · rw [if_neg h]
    have : (-(k : ℚ)) = ((-k : ℤ) : ℚ) := by push_cast; ring
    rw [this, Int.floor_int_add]
    norm_num

/-- SQLite `ROUND(x, 2)`. -/
def round2 (x : ℚ) : ℚ := mkRat (roundHalf (qMul x (qOfInt 100))) 100

/-- SQLite `ROUND(x, 1)`. -/
def round1 (x : ℚ) : ℚ := mkRat (roundHalf (qMul x (qOfInt 10))) 10

theorem round2_eq (x : ℚ) : round2 x = (roundHalf (x * 100) : ℚ) / 100 := by
  rw [round2, Rat.mkRat_eq_div, qMul_eq, qOfInt_eq]
  norm_num

theorem round1_eq (x : ℚ) : round1 x = (roundHalf (x * 10) : ℚ) / 10 := by
  rw [round1, Rat.mkRat_eq_div, qMul_eq, qOfInt_eq]
  norm_num

/-- Rounding to 2 decimals is idempotent (needed because the Python wrappers
re-`round` values the SQL already rounded). -/
theorem round2_round2 (x : ℚ) : round2 (round2 x) = round2 x := by
  rw [round2_eq x, round2_eq]
  rw [div_mul_cancel₀ _ (by norm_num : (100 : ℚ) ≠ 0), roundHalf_intCast]

theorem round1_round1 (x : ℚ) : round1 (round1 x) = round1 x := by
  rw [round1_eq x, round1_eq]
  rw [div_mul_cancel₀ _ (by norm_num : (10 : ℚ) ≠ 0), roundHalf_intCast]

/-- Fuel-based search for `ROUND(SQRT(x), 0)`: the least `c` with
`x < (c + 1/2)^2`.  The fuel `x.num.natAbs + 1` always exceeds the answer,
so the definition is total and models rounding the real square root of a
nonnegative rational half-away-from-zero. -/
def sqrtRoundAux (x : ℚ) : ℕ → ℕ → ℕ
  | 0, c => c
  | f + 1, c =>
    if x < qMul (mkRat (2 * c + 1) 2) (mkRat (2 * c + 1) 2) then c
    else sqrtRoundAux x f (c + 1)

/-- `ROUND(SQRT(x), 0)` for a nonnegative rational `x`. -/
def sqrtRound (x : ℚ) : ℤ := (sqrtRoundAux x (x.num.natAbs + 1) 0 : ℕ)

/-! ### Byte-order string comparison (SQLite BINARY collation on ASCII shas) -/

/-- Lexicographic `≤` on char lists; on the ASCII shas and tags stored in the
`commits` table this coincides with SQLite's BINARY (memcmp) text ordering. -/
def charListLe : List Char → List Char → Bool
  | [], _ => true
  | _ :: _, [] => false
  | a :: as, b :: bs => a < b || (a = b && charListLe as bs)

/-! ### Data model: commit records and `commits` table rows

`CREATE TABLE commits (sha TEXT PRIMARY KEY, author_email TEXT,
committed_date INTEGER, _raw_data_params TEXT, message TEXT)` from
`src/sqlite_lake.py`.  A `Commit` models one entry of `logs` together with the
message text fetched for it by `git_run` (`none` models a failed fetch, which
the source turns into the empty string and then into SQL NULL via
`msg or None`). -/

structure Commit where
  sha : String
  author_email : String
  committed_date : ℤ
  message : Option String
deriving DecidableEq

structure Row where
  sha : String
  author_email : String
  committed_date : ℤ
  raw_data_params : String
  message : Option String
deriving DecidableEq

/-- The row inserted for a commit: `INSERT OR REPLACE INTO commits ... VALUES
(sha, author_email, committed_date, repo_id, msg or None)`; an empty message
string is stored as NULL (`msg or None`). -/
def toRow (repo_id : String) (c : Commit) : Row :=
  ⟨c.sha, c.author_email, c.committed_date, repo_id,
    match c.message with
    | some s => if s = "" then none else some s
    | none => none⟩

/-- `INSERT OR REPLACE` keyed on the `sha` PRIMARY KEY: any existing row with
the same sha (under any repo tag) is replaced. -/
def upsertRow (r : Row) (store : List Row) : List Row :=
  (store.filter (fun x => x.sha ≠ r.sha)) ++ [r]

/-- `populate_commits_from_log(conn, logs, repo_id)` from `src/sqlite_lake.py`:
`DELETE FROM commits WHERE _raw_data_params = repo_id`, then insert-or-replace
one row per log entry.  The table is modelled as a list of rows. -/
def populate_commits_from_log (store : List Row) (logs : List Commit)
    (repo_id : String) : List Row :=
  logs.foldl (fun s c => upsertRow (toRow repo_id c) s)
    (store.filter (fun r => r.raw_data_params ≠ repo_id))

/-- The rows selected by `WHERE _raw_data_params = ?`. -/
def rowsWithTag (repo_id : String) (store : List Row) : List Row :=
  store.filter (fun r => r.raw_data_params = repo_id)

/-! ### Delta extraction (`_deltas_cte` /
`src/calculators/sqlite_lake/cycle_time_by_commits_calculator.py`) -/

/-- One row of the `valid` CTE: the newer commit's `committed_date` and `sha`
plus `ROUND((committed_date - LAG(committed_date) OVER (PARTITION BY
author_email ORDER BY committed_date, sha)) / 60.0, 2)`. -/
structure Delta where
  committed_date : ℤ
  sha : String
  cycle_minutes : ℚ
deriving DecidableEq

/-- `ROUND((newer - older) / 60.0, 2)`. -/
def deltaMinutes (older newer : ℤ) : ℚ :=
  round2 (qDiv (qOfInt (newer - older)) (qOfInt 60))

/-- The `(committed_date, sha)` window ordering used by every `OVER (... ORDER
BY committed_date, sha)` clause. -/
def rowLeB (a b : Row) : Bool :=
  decide (a.committed_date < b.committed_date) ||
    (decide (a.committed_date = b.committed_date) && charListLe a.sha.data b.sha.data)

def sortRows (l : List Row) : List Row :=
  List.insertionSort (fun a b => rowLeB a b = true) l

/-- `LAG(committed_date)` over one (already sorted) author partition: each row
after the first pairs with its immediate predecessor. -/
def lagDeltas : List Row → List Delta
  | a :: b :: rest =>
    ⟨b.committed_date, b.sha, deltaMinutes a.committed_date b.committed_date⟩ ::
      lagDeltas (b :: rest)
  | _ => []

/-- The distinct `author_email` partition keys (`PARTITION BY author_email`);
the partition iteration order is a modelling choice (no claim depends on it). -/
def authorsOf (rows : List Row) : List String :=
  (rows.map (fun r => r.author_email)).dedup

/-- The `valid` CTE: all non-NULL lag deltas, author partition by partition. -/
def deltasCTE (rows : List Row) : List Delta :=
  (authorsOf rows).flatMap (fun a =>
    lagDeltas (sortRows (rows.filter (fun r => r.author_email = a))))

/-- `query_deltas(conn, repo_id)`: the deltas CTE rows as
`(committed_date, round(cycle_minutes, 2))` pairs (the Python wrapper
re-rounds the already-rounded SQL value). -/
def query_deltas (store : List Row) (repo_id : String) : List (ℤ × ℚ) :=
  (deltasCTE (rowsWithTag repo_id store)).map
    (fun d => (d.committed_date, round2 d.cycle_minutes))

/-! ### Calendar months (`strftime('%Y-%m', ts, 'unixepoch', 'localtime')`,
modelled in UTC) -/

/-- Civil (year, month) from days since the Unix epoch (Howard Hinnant's
`civil_from_days`; `/` on ℤ is Euclidean division, which is floor division
for the positive divisors used here). -/
def civilFromDays (z0 : ℤ) : ℤ × ℤ :=
  let z := z0 + 719468
  let era := z / 146097
  let doe := z - era * 146097
  let yoe := (doe - doe / 1460 + doe / 36524 - doe / 146096) / 365
  let y := yoe + era * 400
  let doy := doe - (365 * yoe + yoe / 4 - yoe / 100)
  let mp := (5 * doy + 2) / 153
  let m := mp + (if mp < 10 then 3 else -9)
  (if m ≤ 2 then y + 1 else y, m)

/-- The `(year, month)` group key of a Unix timestamp. -/
def monthPair (ts : ℤ) : ℤ × ℤ := civilFromDays (ts / 86400)

def digitChar (n : ℕ) : Char := Char.ofNat (48 + n)

def natDigits : ℕ → ℕ → List Char
  | 0, _ => []
  | f + 1, n => if n < 10 then [digitChar n] else natDigits f (n / 10) ++ [digitChar (n % 10)]

def natToChars (n : ℕ) : List Char := natDigits (n + 1) n

def pad2 (n : ℕ) : List Char := if n < 10 then '0' :: natToChars n else natToChars n

def pad4 (n : ℕ) : List Char :=
  if n < 10 then '0' :: '0' :: '0' :: natToChars n
  else if n < 100 then '0' :: '0' :: natToChars n
  else if n < 1000 then '0' :: natToChars n
  else natToChars n

/-- `strftime('%Y-%m', ...)` rendering of a `(year, month)` key. -/
def monthStr (ym : ℤ × ℤ) : String :=
  ⟨(if ym.1 < 0 then '-' :: pad4 ym.1.natAbs else pad4 ym.1.toNat) ++ ('-' :: pad2 ym.2.toNat)⟩

/-- `(year, month)` keys ordered ascending (`ORDER BY month_year` on the
`'%Y-%m'` strings, which sorts like the pairs). -/
def zpLeB (a b : ℤ × ℤ) : Bool :=
  decide (a.1 < b.1) || (decide (a.1 = b.1) && decide (a.2 ≤ b.2))

def sortMonths (l : List (ℤ × ℤ)) : List (ℤ × ℤ) :=
  List.insertionSort (fun a b => zpLeB a b = true) l

/-! ### Fixed-bucket statistics (`_sql_fixed_bucket_stats`) -/

/-- The `(committed_date, sha)` ordering on delta rows (the `numbered` CTE's
`ROW_NUMBER() OVER (ORDER BY committed_date, sha)`). -/
def deltaLeB (a b : Delta) : Bool :=
  decide (a.committed_date < b.committed_date) ||
    (decide (a.committed_date = b.committed_date) && charListLe a.sha.data b.sha.data)

def sortDeltas (l : List Delta) : List Delta :=
  List.insertionSort (fun a b => deltaLeB a b = true) l

/-- `bucket_id = (ROW_NUMBER() - 1) / bucket_size` grouping: consecutive
chunks of `n` elements.  `n = 0` mirrors SQLite's `x / 0 = NULL` putting every
row in one NULL-keyed group. -/
def chunksGo (n : ℕ) : ℕ → List α → List (List α)
  | _, [] => []
  | 0, l => [l]
  | f + 1, l => l.take n :: chunksGo n f (l.drop n)

def chunksOf (n : ℕ) (l : List α) : List (List α) :=
  if n = 0 then (if l.isEmpty then [] else [l]) else chunksGo n l.length l

/-- The bucket's minute values sorted ascending (the `ranked` CTE's
`ROW_NUMBER() OVER (PARTITION BY bucket_id ORDER BY cycle_minutes)`). -/
def rankedMinutes (ms : List ℚ) : List ℚ :=
  List.insertionSort (fun a b : ℚ => a ≤ b) ms

/-- `s_p75` of one bucket: `k_lo = CAST((n-1)*0.75 AS INT) + 1` (the cast
truncates; the operand is nonnegative so it is the floor), `frac` its
fractional part, `v_lo`/`v_hi` the minutes at 1-based ranks `k_lo` and
`k_lo + 1` (`COALESCE(v_hi, v_lo)` when rank `k_lo + 1` is absent), and
`CAST(ROUND((1-frac)*v_lo + frac*v_hi, 0) AS INT)`. -/
def bucketP75 (ms : List ℚ) : ℤ :=
  let n := ms.length
  let sorted := rankedMinutes ms
  let i := qMul (qOfNat (n - 1)) (mkRat 3 4)
  let k := i.floor
  let kLo := k.toNat + 1
  let frac := qSub i (qOfInt k)
  let vLo := sorted.getD (kLo - 1) 0
  let vHi := sorted.getD kLo vLo
  roundHalf (qAdd (qMul (qSub 1 frac) vLo) (qMul frac vHi))

/-- The claim's formulation of the p75: index `i = (n-1)×0.75`, `k = ⌊i⌋`,
`f = i - k`, `p75 = round((1-f)×sorted[k] + f×sorted[k+1])` with 0-based
ascending `sorted` and `sorted[k+1]` read as `sorted[k]` when out of range. -/
def p75Spec (ms : List ℚ) : ℤ :=
  let n := ms.length
  let sorted := rankedMinutes ms
  let i := qMul (qOfNat (n - 1)) (mkRat 3 4)
  let k := i.floor.toNat
  let f := qSub i (qOfInt i.floor)
  roundHalf (qAdd (qMul (qSub 1 f) (sorted.getD k 0))
    (qMul f (sorted.getD (k + 1) (sorted.getD k 0))))

/-- `s_std` of one bucket:
`CAST(ROUND(SQRT(MAX(0, (s2 - s*s*1.0/n) / (n - 1))), 0) AS INT)`. -/
def bucketStd (ms : List ℚ) : ℤ :=
  let n := ms.length
  let s := qSum ms
  let s2 := qSum (ms.map (fun x => qMul x x))
  sqrtRound (qMax 0 (qDiv (qSub s2 (qDiv (qMul s s) (qOfNat n))) (qOfNat (n - 1))))

/-- The claim's sample variance: `Σ(x - mean)² / (n - 1)` (Bessel). -/
def sampleVar (ms : List ℚ) : ℚ :=
  let mean := qDiv (qSum ms) (qOfNat ms.length)
  qDiv (qSum (ms.map (fun x => qMul (qSub x mean) (qSub x mean)))) (qOfNat (ms.length - 1))

/-- Population variance (divide by `n`), used only to witness that the code
does not compute it. -/
def popVar (ms : List ℚ) : ℚ :=
  let mean := qDiv (qSum ms) (qOfNat ms.length)
  qDiv (qSum (ms.map (fun x => qMul (qSub x mean) (qSub x mean)))) (qOfNat ms.length)

structure BucketStat where
  interval_start : String
  s_sum : ℚ
  s_average : ℚ
  s_p75 : ℤ
  s_std : ℤ
deriving DecidableEq

/-- `MIN(committed_date)` of a bucket (`first_ts`). -/
def minDateOf : List Delta → ℤ
  | [] => 0
  | d :: t => t.foldl (fun acc x => min acc x.committed_date) d.committed_date

/-- The output row for one kept fixed bucket: `(strftime('%Y-%m', first_ts),
SUM, ROUND(SUM/n, 2), s_p75, s_std)`. -/
def mkStat (chunk : List Delta) : BucketStat :=
  let ms := chunk.map (fun d => d.cycle_minutes)
  let s := qSum ms
  ⟨monthStr (monthPair (minDateOf chunk)), s, round2 (qDiv s (qOfNat chunk.length)),
    bucketP75 ms, bucketStd ms⟩

/-- The bucket-size chunks of the `(committed_date, sha)`-sorted delta rows. -/
def fixedChunks (rows : List Row) (bucket_size : ℕ) : List (List Delta) :=
  chunksOf bucket_size (sortDeltas (deltasCTE rows))

/-- The buckets surviving `HAVING COUNT(*) >= 2`. -/
def fixedKept (rows : List Row) (bucket_size : ℕ) : List (List Delta) :=
  (fixedChunks rows bucket_size).filter (fun c => 2 ≤ c.length)

/-- `query_fixed_bucket_stats_pure_sql(conn, bucket_size, repo_id)`. -/
def query_fixed_bucket_stats_pure_sql (store : List Row) (bucket_size : ℕ)
    (repo_id : String) : List BucketStat :=
  (fixedKept (rowsWithTag repo_id store) bucket_size).map mkStat

/-! ### By-month statistics (`_sql_by_month_stats`) -/

/-- The distinct month keys of the delta rows, ascending (`GROUP BY
month_year` + `ORDER BY month_year`). -/
def monthsOfDeltas (ds : List Delta) : List (ℤ × ℤ) :=
  sortMonths ((ds.map (fun d => monthPair d.committed_date)).dedup)

/-- The month groups surviving `HAVING COUNT(*) >= 2`, with their keys. -/
def monthKept (ds : List Delta) : List ((ℤ × ℤ) × List Delta) :=
  ((monthsOfDeltas ds).map (fun m =>
    (m, ds.filter (fun d => monthPair d.committed_date = m)))).filter
    (fun p => 2 ≤ p.2.length)

/-- The output row for one kept month group. -/
def mkMonthStat (p : (ℤ × ℤ) × List Delta) : BucketStat :=
  let ms := p.2.map (fun d => d.cycle_minutes)
  let s := qSum ms
  ⟨monthStr p.1, s, round2 (qDiv s (qOfNat p.2.length)), bucketP75 ms, bucketStd ms⟩

/-- `query_by_month_stats_pure_sql(conn, repo_id)`. -/
def query_by_month_stats_pure_sql (store : List Row) (repo_id : String) :
    List BucketStat :=
  (monthKept (deltasCTE (rowsWithTag repo_id store))).map mkMonthStat

/-! ### Change-failure rate (`_sql_change_failure_by_month`) -/

/-- `(message IS NOT NULL) AND (LOWER(message) LIKE '%revert%' OR ... OR
LOWER(message) LIKE '%issue%')`, in source keyword order.  SQLite's `LOWER`
lowercases ASCII only, as does `Char.toLower`. -/
def lowerL (l : List Char) : List Char := l.map Char.toLower

def hasInfix (pat : List Char) : List Char → Bool
  | [] => pat.isEmpty
  | c :: rest => pat.isPrefixOf (c :: rest) || hasInfix pat rest

def isFix (r : Row) : Bool :=
  match r.message with
  | none => false
  | some msg =>
    let lm := lowerL msg.data
    hasInfix "revert".data lm || hasInfix "hotfix".data lm ||
      hasInfix "bugfix".data lm || hasInfix "bug".data lm ||
      hasInfix "fix".data lm || hasInfix "problem".data lm ||
      hasInfix "issue".data lm

/-- The distinct month keys of the commit rows, ascending. -/
def monthsOfRows (rows : List Row) : List (ℤ × ℤ) :=
  sortMonths ((rows.map (fun r => monthPair r.committed_date)).dedup)

/-- `query_change_failure_by_month_sql(conn, repo_id)`: per month,
`CASE WHEN total = 0 THEN 0 ELSE ROUND(100.0 * fix / total, 1) END`; the
Python wrapper re-rounds each rate to 1 decimal. -/
def query_change_failure_by_month_sql (store : List Row) (repo_id : String) :
    List (String × ℚ) :=
  let rows := rowsWithTag repo_id store
  ((monthsOfRows rows).map (fun m =>
    let g := rows.filter (fun r => monthPair r.committed_date = m)
    (monthStr m,
      if g.length = 0 then (0 : ℚ)
      else round1 (qDiv (qMul (qOfInt 100) (qOfNat (g.countP isFix)))
        (qOfNat g.length))))).map (fun p => (p.1, round1 p.2))

/-! ### The `SqliteLake` query wrappers
(`src/calculators/sqlite_lake/__init__.py`) -/

/-- Modelled from the spec: `schema.get_first_repo_id` is called by
`_resolve_repo_id` but its definition is not under `src/`.  Per the caller's
docstring — "Return repo_id if set, else first repo in commits. None if lake
empty." — it yields the tag of some stored row, here the first, and `none` on
an empty store. -/
def get_first_repo_id (store : List Row) : Option String :=
  match store with
  | [] => none
  | r :: _ => some r.raw_data_params

/-- `_resolve_repo_id(conn, repo_id)`. -/
def resolve_repo_id (store : List Row) (repo_id : Option String) : Option String :=
  match repo_id with
  | some rid => some rid
  | none => get_first_repo_id store

/-- Python truthiness of the resolved id in `... if rid else []`: both `None`
and the empty string are falsy. -/
def truthyRid : Option String → Option String
  | some s => if s = "" then none else some s
  | none => none

def lake_query_deltas (store : List Row) (repo_id : Option String) :
    List (ℤ × ℚ) :=
  match truthyRid (resolve_repo_id store repo_id) with
  | none => []
  | some rid => query_deltas store rid

def lake_query_fixed_bucket_stats (store : List Row) (bucket_size : ℕ)
    (repo_id : Option String) : List BucketStat :=
  match truthyRid (resolve_repo_id store repo_id) with
  | none => []
  | some rid => query_fixed_bucket_stats_pure_sql store bucket_size rid

def lake_query_by_month_stats (store : List Row) (repo_id : Option String) :
    List BucketStat :=
  match truthyRid (resolve_repo_id store repo_id) with
  | none => []
  | some rid => query_by_month_stats_pure_sql store rid

def lake_query_change_failure (store : List Row) (repo_id : Option String) :
    List (String × ℚ) :=
  match truthyRid (resolve_repo_id store repo_id) with
  | none => []
  | some rid => query_change_failure_by_month_sql store rid

/-! ### The in-memory delta extractor -/

/-- Modelled from the spec: the in-memory `calculate_time_deltas`
(`src/calculators/cycle_time_by_commits_calculator.py`) is imported by the
validation tests but its file is not under `src/`.  Per spec §4.1: partition
commits by `author_email`; within each partition sort by `committed_at`
ascending (stable — insertion sort with `≤` keeps log order on ties); walk
consecutive pairs; emit `(curr.committed_at, round((curr - prev)/60, 2))`. -/
def lagPairs : List Commit → List (ℤ × ℚ)
  | a :: b :: rest =>
    (b.committed_date, deltaMinutes a.committed_date b.committed_date) ::
      lagPairs (b :: rest)
  | _ => []

def cLeB (c1 c2 : Commit) : Bool := decide (c1.committed_date ≤ c2.committed_date)

def calculate_time_deltas (logs : List Commit) : List (ℤ × ℚ) :=
  ((logs.map (fun c => c.author_email)).dedup).flatMap (fun a =>
    lagPairs (List.insertionSort (fun c1 c2 => cLeB c1 c2 = true)
      (logs.filter (fun c => c.author_email = a))))

/-- The `(timestamp, minutes)` sort both validation paths are compared under. -/
def tsLeB (a b : ℤ × ℚ) : Bool :=
  decide (a.1 < b.1) || (decide (a.1 = b.1) && decide (a.2 ≤ b.2))

def sortPairs (l : List (ℤ × ℚ)) : List (ℤ × ℚ) :=
  List.insertionSort (fun a b => tsLeB a b = true) l

/-! ### `normalize_date` (`src/util/date_util.py`)

A Python value is either a string or a non-string (`.other`); `normalize_date`
returns non-strings unchanged (`if not isinstance(value, str)`). -/

inductive PyVal where
  | str (s : String)
  | other
deriving DecidableEq

def trimChars (l : List Char) : List Char :=
  ((l.dropWhile Char.isWhitespace).reverse.dropWhile Char.isWhitespace).reverse

/-- `value.split('-')`. -/
def splitOnChar (sep : Char) : List Char → List (List Char)
  | [] => [[]]
  | c :: rest =>
    let r := splitOnChar sep rest
    if c = sep then [] :: r
    else
      match r with
      | [] => [[c]]
      | h :: t => (c :: h) :: t

def digitsNat (l : List Char) : ℕ := l.foldl (fun a c => 10 * a + (c.toNat - 48)) 0

/-- Model of Python `int(str)`: optional surrounding whitespace, optional
sign, decimal digits.  (Python 3's underscore digit separators are not
modelled; no caller relies on them.) -/
def pyInt (s : List Char) : Option ℤ :=
  match trimChars s with
  | [] => none
  | '+' :: ds => if !ds.isEmpty && ds.all Char.isDigit then some (digitsNat ds : ℤ) else none
  | '-' :: ds => if !ds.isEmpty && ds.all Char.isDigit then some (-(digitsNat ds : ℤ)) else none
  | ds => if ds.all Char.isDigit then some (digitsNat ds : ℤ) else none

/-- Whitespace-separated words (`strptime` format spaces match runs of
whitespace). -/
def splitWsGo : List Char → List Char → List (List Char)
  | acc, [] => if acc.isEmpty then [] else [acc.reverse]
  | acc, c :: rest =>
    if c.isWhitespace then
      if acc.isEmpty then splitWsGo [] rest else acc.reverse :: splitWsGo [] rest
    else splitWsGo (c :: acc) rest

def splitWs (l : List Char) : List (List Char) := splitWsGo [] l

def weekdayNames : List (List Char) :=
  ["mon", "tue", "wed", "thu", "fri", "sat", "sun"].map String.data

def monthNames : List (List Char) :=
  ["jan", "feb", "mar", "apr", "may", "jun", "jul", "aug", "sep", "oct", "nov",
    "dec"].map String.data

/-- A 1-2 digit numeric field within `[lo, hi]` (the regex ranges `strptime`
uses for `%d`, `%H`, `%M`, `%S`). -/
def validNum (l : List Char) (lo hi : ℕ) : Bool :=
  !l.isEmpty && l.length ≤ 2 && l.all Char.isDigit &&
    decide (lo ≤ digitsNat l) && decide (digitsNat l ≤ hi)

/-- Model of `time.strptime(value.strip(), '%a %b %d %H:%M:%S %Y')`: five
whitespace-separated fields — a case-insensitive weekday abbreviation, a
case-insensitive month abbreviation, a day 1-31, a `H:M:S` time and a 4-digit
year — yielding `(year, month, day)`. -/
def tryCtime (s : List Char) : Option (ℤ × ℕ × Option ℕ) :=
  match splitWs (trimChars s) with
  | [w, mo, d, t, y] =>
    if weekdayNames.contains (lowerL w) then
      match monthNames.findIdx? (fun nm => nm == lowerL mo) with
      | some mi =>
        match splitOnChar ':' t with
        | [hh, mm, ss] =>
          if validNum d 1 31 && validNum hh 0 23 && validNum mm 0 59 &&
              validNum ss 0 61 && decide (y.length = 4) && y.all Char.isDigit then
            some ((digitsNat y : ℤ), mi + 1, some (digitsNat d))
          else none
        | _ => none
      | none => none
    else none
  | _ => none

/-- `_parse_date(value)`: try `YYYY-M`/`YYYY-MM` with month in 1..12, else a
ctime-style date, else `None` (modelled as `none`). -/
def parse_date (s : List Char) : Option (ℤ × ℕ × Option ℕ) :=
  (match splitOnChar '-' s with
    | [p0, p1] =>
      match pyInt p0, pyInt p1 with
      | some y, some m => if 1 ≤ m ∧ m ≤ 12 then some (y, m.toNat, none) else none
      | _, _ => none
    | _ => none).orElse (fun _ => tryCtime s)

def intToChars (z : ℤ) : List Char :=
  if z < 0 then '-' :: natToChars z.natAbs else natToChars z.toNat

def monthAbbrs : List (List Char) :=
  ["Jan", "Feb", "Mar", "Apr", "May", "Jun", "Jul", "Aug", "Sep", "Oct",
    "Nov", "Dec"].map String.data

/-- `time.strftime('%a %b %d %H:%M:%S %Y', struct)` on the struct
`(year, month, day, 0, 0, 0, 0, 0, -1)` built by `normalize_date`: the
weekday field of that struct is always 0, so the rendered weekday is always
`Mon`. -/
def ctimeStr (y : ℤ) (m d : ℕ) : String :=
  ⟨"Mon ".data ++ monthAbbrs.getD (m - 1) [] ++ (' ' :: pad2 d) ++
    " 00:00:00 ".data ++ intToChars y⟩

/-- `normalize_date(value, output_format)`. -/
def normalize_date (value : PyVal) (output_format : String) : PyVal :=
  match value with
  | .other => value
  | .str s =>
    match parse_date s.data with
    | none => value
    | some (y, m, d) =>
      if output_format = "YYYY-MM" then
        .str ⟨intToChars y ++ ('-' :: pad2 m)⟩
      else if output_format = "ctime" then
        .str (ctimeStr y m (d.getD 1))
      else value

/-! ### Shared supporting lemmas -/

theorem deltaMinutes_round2 (a b : ℤ) : round2 (deltaMinutes a b) = deltaMinutes a b := by
  rw [deltaMinutes, round2_round2]

theorem chunksOf_nil (n : ℕ) : chunksOf n ([] : List α) = [] := by
  by_cases h : n = 0 <;> simp [chunksOf, h, chunksGo]

theorem lagDeltas_eq_zip (l : List Row) :
    lagDeltas l = (l.zip l.tail).map (fun p =>
      ⟨p.2.committed_date, p.2.sha,
        deltaMinutes p.1.committed_date p.2.committed_date⟩) := by
  induction l with
  | nil => rfl
  | cons a t ih =>
    cases t with
    | nil => rfl
    | cons b rest =>
      rw [lagDeltas, ih]
      simp [List.zip_cons_cons]

theorem lagDeltas_length (l : List Row) : (lagDeltas l).length = l.length - 1 := by
  induction l with
  | nil => rfl
  | cons a t ih =>
    cases t with
    | nil => rfl
    | cons b rest =>
      rw [lagDeltas]
      simp only [List.length_cons]
      rw [ih]
      simp


theorem sortRows_length (l : List Row) : (sortRows l).length = l.length :=
  (List.perm_insertionSort _ l).length_eq

/-! ### C10 — `normalize_date` is best-effort and total -/

/-- C10: for every input value, `normalize_date` never raises: a non-string
input, or a string that `_parse_date` parses neither as `YYYY-M`/`YYYY-MM`
(month in 1..12) nor as a ctime-style date, is returned unchanged.  (Totality
is inherent: `normalize_date` is a Lean function.) -/
theorem c10_normalize_date_unparseable_unchanged (value : PyVal)
    (output_format : String)
    (h : match value with
      | .other => True
      | .str s => parse_date s.data = none) :
    normalize_date value output_format = value := by
  cases value with
  | other => rfl
  | str s =>
    have hp : parse_date s.data = none := h
    simp [normalize_date, hp]

theorem c10_normalize_witness :
    (match PyVal.str "garbage" with
      | .other => True
      | .str s => parse_date s.data = none) ∧
    normalize_date (PyVal.str "garbage") "YYYY-MM" = PyVal.str "garbage" :=
  ⟨by decide, c10_normalize_date_unparseable_unchanged (PyVal.str "garbage")
    "YYYY-MM" (by decide)⟩

/-! ### C4 — queries against an unloaded repository tag are empty -/

/-- C4: for every store state and repository tag for which no rows are loaded
(including a completely empty store queried with no tag supplied), each of the
four query operations returns an empty result (and, being Lean functions,
never errors). -/
theorem c4_unloaded_tag_queries_empty (store : List Row) (repo_id : String)
    (bucket_size : ℕ) (h : ∀ r ∈ store, r.raw_data_params ≠ repo_id) :
    lake_query_deltas store (some repo_id) = [] ∧
    lake_query_fixed_bucket_stats store bucket_size (some repo_id) = [] ∧
    lake_query_by_month_stats store (some repo_id) = [] ∧
    lake_query_change_failure store (some repo_id) = [] ∧
    lake_query_deltas [] none = [] ∧
    lake_query_fixed_bucket_stats [] bucket_size none = [] ∧
    lake_query_by_month_stats [] none = [] ∧
    lake_query_change_failure [] none = [] := by
  have hnil : rowsWithTag repo_id store = [] :=
    List.filter_eq_nil_iff.mpr (fun r hr => by simpa using h r hr)
  by_cases he : repo_id = ""
  · subst he
    exact ⟨rfl, rfl, rfl, rfl, rfl, rfl, rfl, rfl⟩
  · have hq : query_deltas store repo_id = [] := by
      unfold query_deltas
      rw [hnil]
      rfl
    have hf : query_fixed_bucket_stats_pure_sql store bucket_size repo_id = [] := by
      unfold query_fixed_bucket_stats_pure_sql fixedKept fixedChunks
      rw [hnil]
      rw [show sortDeltas (deltasCTE []) = [] from rfl, chunksOf_nil]
      rfl
    have hm : query_by_month_stats_pure_sql store repo_id = [] := by
      unfold query_by_month_stats_pure_sql
      rw [hnil]
      rfl
    have hc : query_change_failure_by_month_sql store repo_id = [] := by
      unfold query_change_failure_by_month_sql
      rw [hnil]
      rfl
    refine ⟨?_, ?_, ?_, ?_, rfl, rfl, rfl, rfl⟩ <;>
      simp [lake_query_deltas, lake_query_fixed_bucket_stats,
        lake_query_by_month_stats, lake_query_change_failure, truthyRid,
        resolve_repo_id, he, hq, hf, hm, hc]

theorem c4_unloaded_witness :
    (∀ r ∈ [(⟨"s", "a", 0, "X", none⟩ : Row)], r.raw_data_params ≠ "Y") ∧
    lake_query_deltas [(⟨"s", "a", 0, "X", none⟩ : Row)] (some "Y") = [] ∧
    lake_query_change_failure [(⟨"s", "a", 0, "X", none⟩ : Row)] (some "Y") = [] :=
  ⟨by decide,
    (c4_unloaded_tag_queries_empty [⟨"s", "a", 0, "X", none⟩] "Y" 4 (by decide)).1,
    (c4_unloaded_tag_queries_empty [⟨"s", "a", 0, "X", none⟩] "Y" 4 (by decide)).2.2.2.1⟩

/-! ### C5 — change-failure classification and monthly rate -/

/-- The spec's fix-keyword list, in source order. -/
def fixKeywords : List String :=
  ["revert", "hotfix", "bugfix", "bug", "fix", "problem", "issue"]

/-- The spec's change-failure scenario: four same-month commits with messages
`["fix login", "add feature", "hotfix crash", None]`. -/
def c5Commits : List Commit :=
  [⟨"m1", "a", 1000000, some "fix login"⟩,
   ⟨"m2", "a", 1000001, some "add feature"⟩,
   ⟨"m3", "a", 1000002, some "hotfix crash"⟩,
   ⟨"m4", "a", 1000003, none⟩]

def c5Store : List Row := populate_commits_from_log [] c5Commits "r"

/-- C5: a commit is counted as a fix exactly when its message is non-null and
case-insensitively contains one of the seven keywords; a null message is never
a fix; per month present in the input the emitted rate is
`round(100 × fix_count / total_count, 1)` (the `total = 0` guard is dead and
the wrapper's re-round is the identity); the spec's 4-commit scenario yields
rate 50.0. -/
theorem c5_change_failure_rate (store : List Row) (repo_id : String) (r : Row) :
    (isFix r = true ↔ ∃ s, r.message = some s ∧
      fixKeywords.any (fun kw => hasInfix kw.data (lowerL s.data)) = true) ∧
    (r.message = none → isFix r = false) ∧
    query_change_failure_by_month_sql store repo_id =
      (monthsOfRows (rowsWithTag repo_id store)).map (fun m =>
        (monthStr m,
          round1 (qDiv (qMul (qOfInt 100)
            (qOfNat (((rowsWithTag repo_id store).filter
              (fun x => monthPair x.committed_date = m)).countP isFix)))
            (qOfNat ((rowsWithTag repo_id store).filter
              (fun x => monthPair x.committed_date = m)).length)))) ∧
    query_change_failure_by_month_sql c5Store "r" = [("1970-01", (50 : ℚ))] := by
  refine ⟨?_, ?_, ?_, by decide⟩
  · cases hm : r.message with
    | none => simp [isFix, hm]
    | some s =>
      simp only [isFix, hm, fixKeywords, List.any_cons, List.any_nil,
        Bool.or_eq_true, Bool.or_false, Option.some.injEq]
      constructor
      · intro hh
        exact ⟨s, rfl, by tauto⟩
      · rintro ⟨s', hs', hh⟩
        subst hs'
        tauto
  · intro hm
    simp [isFix, hm]
  · unfold query_change_failure_by_month_sql
    rw [List.map_map]
    apply List.map_congr_left
    intro m hm
    simp only [Function.comp]
    have hmem : ∃ x ∈ rowsWithTag repo_id store, monthPair x.committed_date = m := by
      have h1 : m ∈ ((rowsWithTag repo_id store).map
          (fun x => monthPair x.committed_date)).dedup :=
        ((List.perm_insertionSort _ _).mem_iff).mp hm
      have h2 := List.mem_dedup.mp h1
      obtain ⟨x, hx, hxm⟩ := List.mem_map.mp h2
      exact ⟨x, hx, hxm⟩
    obtain ⟨x, hx, hxm⟩ := hmem
    have hne : ((rowsWithTag repo_id store).filter
        (fun y => monthPair y.committed_date = m)).length ≠ 0 := by
      have : x ∈ (rowsWithTag repo_id store).filter
          (fun y => monthPair y.committed_date = m) :=
        List.mem_filter.mpr ⟨hx, by simp [hxm]⟩
      exact Nat.pos_iff_ne_zero.mp (List.length_pos.mpr (List.ne_nil_of_mem this))
    rw [if_neg hne, round1_round1]

theorem c5_change_failure_witness :
    isFix (⟨"m4", "a", 1000003, "r", none⟩ : Row) = false ∧
    query_change_failure_by_month_sql c5Store "r" = [("1970-01", (50 : ℚ))] :=
  ⟨(c5_change_failure_rate c5Store "r" ⟨"m4", "a", 1000003, "r", none⟩).2.1 rfl,
    (c5_change_failure_rate c5Store "r" ⟨"m4", "a", 1000003, "r", none⟩).2.2.2⟩

/-! ### C6 — fixed-bucket p75 is the linear-interpolation percentile -/

theorem bucketP75_eq_p75Spec (ms : List ℚ) : bucketP75 ms = p75Spec ms := by
  simp [bucketP75, p75Spec]

/-- C6: every emitted fixed bucket (all of which hold ≥ 2 deltas) reports as
p75 the linear-interpolation percentile of its minute values: with
`i = (n-1)×0.75`, `k = ⌊i⌋`, `f = i - k`,
`p75 = round((1-f)×sorted[k] + f×sorted[k+1])` (0-based ascending sort,
`sorted[k+1]` read as `sorted[k]` when out of range). -/
theorem c6_fixed_bucket_p75 (store : List Row) (bucket_size : ℕ)
    (repo_id : String) (chunk : List Delta)
    (h : chunk ∈ fixedKept (rowsWithTag repo_id store) bucket_size) :
    2 ≤ chunk.length ∧
    mkStat chunk ∈ query_fixed_bucket_stats_pure_sql store bucket_size repo_id ∧
    (mkStat chunk).s_p75 = p75Spec (chunk.map (fun d => d.cycle_minutes)) := by
  refine ⟨?_, List.mem_map_of_mem _ h, ?_⟩
  · have := (List.mem_filter.mp h).2
    simpa using this
  · exact bucketP75_eq_p75Spec _

def c6Commits : List Commit :=
  [⟨"b1", "a", 0, none⟩, ⟨"b2", "a", 600, none⟩, ⟨"b3", "a", 2400, none⟩]

def c6Store : List Row := populate_commits_from_log [] c6Commits "r"

def c6Chunk : List Delta := [⟨600, "b2", 10⟩, ⟨2400, "b3", 30⟩]

theorem c6_p75_witness :
    c6Chunk ∈ fixedKept (rowsWithTag "r" c6Store) 4 ∧
    (mkStat c6Chunk).s_p75 = p75Spec (c6Chunk.map (fun d => d.cycle_minutes)) ∧
    (mkStat c6Chunk).s_p75 = 25 :=
  ⟨by decide, (c6_fixed_bucket_p75 c6Store 4 "r" c6Chunk (by decide)).2.2, by decide⟩

/-! ### C7 — fixed-bucket stdev is the Bessel-corrected sample deviation -/

theorem sum_sq_dev (l : List ℚ) (μ : ℚ) :
    (l.map (fun x => (x - μ) * (x - μ))).sum =
      (l.map (fun x => x * x)).sum - 2 * μ * l.sum + l.length * μ ^ 2 := by
  induction l with
  | nil => simp
  | cons x t ih =>
    simp only [List.map_cons, List.sum_cons, ih, List.length_cons]
    push_cast
    ring

theorem sum_sq_nonneg (l : List ℚ) (μ : ℚ) :
    0 ≤ (l.map (fun x => (x - μ) * (x - μ))).sum := by
  apply List.sum_nonneg
  intro y hy
  obtain ⟨x, _, hxy⟩ := List.mem_map.mp hy
  rw [← hxy]
  exact mul_self_nonneg _

/-- The SQL sum-of-squares radicand equals the Bessel sample variance
exactly over ℚ, and the `MAX(0, ·)` floor is the identity on it. -/
theorem bucketStd_eq_sampleVar (ms : List ℚ) (h : 2 ≤ ms.length) :
    bucketStd ms = sqrtRound (sampleVar ms) := by
  have hn0 : ((ms.length : ℚ)) ≠ 0 := by
    have : (0 : ℚ) < (ms.length : ℚ) := by exact_mod_cast (by omega : 0 < ms.length)
    exact ne_of_gt this
  have hn1 : ((ms.length - 1 : ℕ) : ℚ) = (ms.length : ℚ) - 1 :=
    Nat.cast_sub (by omega)
  unfold bucketStd sampleVar
  simp only [qSub_eq, qDiv_eq, qMul_eq, qSum_eq, qOfNat_eq, qMax_eq]
  congr 1
  have hvar :
      ((ms.map (fun x => (x - ms.sum / (ms.length : ℚ)) *
          (x - ms.sum / (ms.length : ℚ)))).sum) =
        (ms.map (fun x => x * x)).sum - ms.sum * ms.sum / (ms.length : ℚ) := by
    rw [sum_sq_dev]
    field_simp
    ring
  rw [max_eq_right]
  · rw [hvar]
  · apply div_nonneg
    · rw [← hvar]
      exact sum_sq_nonneg _ _
    · rw [hn1]
      have : (2 : ℚ) ≤ (ms.length : ℚ) := by exact_mod_cast h
      linarith

/-- C7: every emitted fixed bucket reports as stdev the Bessel-corrected
(n-1 divisor) sample standard deviation — computed via the sum-of-squares
radicand `(Σx² - (Σx)²/n)/(n-1)`, floored at 0, square-rooted and rounded —
and not the population (divide-by-n) deviation, from which it differs e.g.
on minutes `[10, 30]`. -/
theorem c7_fixed_bucket_sample_stdev (store : List Row) (bucket_size : ℕ)
    (repo_id : String) (chunk : List Delta)
    (h : chunk ∈ fixedKept (rowsWithTag repo_id store) bucket_size) :
    mkStat chunk ∈ query_fixed_bucket_stats_pure_sql store bucket_size repo_id ∧
    (mkStat chunk).s_std = sqrtRound (sampleVar (chunk.map (fun d => d.cycle_minutes))) ∧
    sqrtRound (sampleVar [(10 : ℚ), 30]) ≠ sqrtRound (popVar [(10 : ℚ), 30]) := by
  refine ⟨List.mem_map_of_mem _ h, ?_, by decide⟩
  have h2 : 2 ≤ chunk.length := by
    have := (List.mem_filter.mp h).2
    simpa using this
  have h2m : 2 ≤ (chunk.map (fun d => d.cycle_minutes)).length := by
    simpa [List.length_map] using h2
  exact bucketStd_eq_sampleVar _ h2m

theorem c7_stdev_witness :
    c6Chunk ∈ fixedKept (rowsWithTag "r" c6Store) 4 ∧
    (mkStat c6Chunk).s_std = sqrtRound (sampleVar (c6Chunk.map (fun d => d.cycle_minutes))) ∧
    (mkStat c6Chunk).s_std = 14 ∧ sqrtRound (popVar [(10 : ℚ), 30]) = 10 :=
  ⟨by decide, (c7_fixed_bucket_sample_stdev c6Store 4 "r" c6Chunk (by decide)).2.1,
    by decide, by decide⟩

/-! ### C8 — groups with fewer than 2 deltas are dropped -/

/-- C8: for every delta sequence and positive bucket size, both aggregations
emit exactly the groups holding at least 2 deltas — the output is the
`size ≥ 2` filtrate of the chunk (resp. month-group) list, so its length is
the count of such groups — and, being Lean functions, never error. -/
theorem c8_small_groups_dropped (store : List Row) (bucket_size : ℕ)
    (repo_id : String) (h : 0 < bucket_size) :
    query_fixed_bucket_stats_pure_sql store bucket_size repo_id =
      ((fixedChunks (rowsWithTag repo_id store) bucket_size).filter
        (fun c => 2 ≤ c.length)).map mkStat ∧
    (query_fixed_bucket_stats_pure_sql store bucket_size repo_id).length =
      (fixedChunks (rowsWithTag repo_id store) bucket_size).countP
        (fun c => 2 ≤ c.length) ∧
    query_by_month_stats_pure_sql store repo_id =
      (monthKept (deltasCTE (rowsWithTag repo_id store))).map mkMonthStat ∧
    (query_by_month_stats_pure_sql store repo_id).length =
      ((monthsOfDeltas (deltasCTE (rowsWithTag repo_id store))).map (fun m =>
        (deltasCTE (rowsWithTag repo_id store)).filter
          (fun d => monthPair d.committed_date = m))).countP
        (fun g => 2 ≤ g.length) := by
  refine ⟨rfl, ?_, rfl, ?_⟩
  · rw [query_fixed_bucket_stats_pure_sql, List.length_map, fixedKept,
      List.countP_eq_length_filter]
  · rw [query_by_month_stats_pure_sql, List.length_map, monthKept,
      List.countP_eq_length_filter, List.filter_map, List.filter_map,
      List.length_map, List.length_map]
    rfl

/-- The spec's end-to-end fixture: 12 single-author commits at day offsets
`[1,2,4,7,8,10,13,14,16,19,20,22]` (11 deltas). -/
def c8Commits : List Commit :=
  [⟨"d01", "dev", 86400 * 1, none⟩, ⟨"d02", "dev", 86400 * 2, none⟩,
   ⟨"d03", "dev", 86400 * 4, none⟩, ⟨"d04", "dev", 86400 * 7, none⟩,
   ⟨"d05", "dev", 86400 * 8, none⟩, ⟨"d06", "dev", 86400 * 10, none⟩,
   ⟨"d07", "dev", 86400 * 13, none⟩, ⟨"d08", "dev", 86400 * 14, none⟩,
   ⟨"d09", "dev", 86400 * 16, none⟩, ⟨"d10", "dev", 86400 * 19, none⟩,
   ⟨"d11", "dev", 86400 * 20, none⟩, ⟨"d12", "dev", 86400 * 22, none⟩]

def c8Store : List Row := populate_commits_from_log [] c8Commits "r"

theorem c8_dropped_witness :
    (query_fixed_bucket_stats_pure_sql c8Store 4 "r").length =
      (fixedChunks (rowsWithTag "r" c8Store) 4).countP (fun c => 2 ≤ c.length) ∧
    (fixedChunks (rowsWithTag "r" c8Store) 4).map List.length = [4, 4, 3] ∧
    (query_fixed_bucket_stats_pure_sql c8Store 4 "r").length = 3 :=
  ⟨(c8_small_groups_dropped c8Store 4 "r" (by decide)).2.1, by decide, by decide⟩

/-! ### C2 — `query_deltas` pairs each commit with its same-author
predecessor under the `(committed_date, sha)` ordering -/

/-- C2: for every loaded commit set and tag, `query_deltas` returns, author by
author, exactly one pair per commit that has a same-author predecessor under
the `(committed_at, id)` ordering — the pair being
`(newer.committed_at, round((newer - older)/60, 2))` for consecutive sorted
commits — and no pair for the first commit of an author: each author
partition of size `n` contributes exactly `n - 1` deltas. -/
theorem c2_query_deltas_lag_pairs (store : List Row) (repo_id : String) :
    query_deltas store repo_id =
      (authorsOf (rowsWithTag repo_id store)).flatMap (fun a =>
        let s := sortRows ((rowsWithTag repo_id store).filter
          (fun r => r.author_email = a))
        (s.zip s.tail).map (fun p =>
          (p.2.committed_date,
            deltaMinutes p.1.committed_date p.2.committed_date))) ∧
    ∀ a : String,
      (lagDeltas (sortRows ((rowsWithTag repo_id store).filter
        (fun r => r.author_email = a)))).length =
        ((rowsWithTag repo_id store).filter (fun r => r.author_email = a)).length - 1 := by
  constructor
  · unfold query_deltas deltasCTE
    rw [List.map_flatMap]
    apply congrArg
    funext a
    rw [lagDeltas_eq_zip, List.map_map]
    apply List.map_congr_left
    intro p _
    simp [Function.comp, deltaMinutes_round2]
  · intro a
    rw [lagDeltas_length, sortRows_length]

def c2Commits : List Commit :=
  [⟨"e1", "alice", 0, none⟩, ⟨"e2", "alice", 600, none⟩,
   ⟨"e3", "bob", 300, none⟩]

def c2Store : List Row := populate_commits_from_log [] c2Commits "r"

theorem c2_query_deltas_witness :
    query_deltas c2Store "r" = [(600, (10 : ℚ))] ∧
    (lagDeltas (sortRows ((rowsWithTag "r" c2Store).filter
      (fun r => r.author_email = "alice")))).length =
      ((rowsWithTag "r" c2Store).filter (fun r => r.author_email = "alice")).length - 1 ∧
    (lagDeltas (sortRows ((rowsWithTag "r" c2Store).filter
      (fun r => r.author_email = "bob")))).length = 0 :=
  ⟨by decide, (c2_query_deltas_lag_pairs c2Store "r").2 "alice", by decide⟩

/-! ### Populate normal form (for C9 and C3) -/

/-- One `INSERT OR REPLACE` step of `populate_commits_from_log`. -/
def upsertStep (rid : String) (s : List Row) (c : Commit) : List Row :=
  upsertRow (toRow rid c) s

theorem populate_def (store : List Row) (logs : List Commit) (rid : String) :
    populate_commits_from_log store logs rid =
      logs.foldl (upsertStep rid)
        (store.filter (fun r => r.raw_data_params ≠ rid)) := rfl

/-- `r`'s sha collides with no commit of `logs`. -/
def shaNotIn (logs : List Commit) (r : Row) : Bool :=
  logs.all (fun c => r.sha ≠ c.sha)

theorem toRow_sha (rid : String) (c : Commit) : (toRow rid c).sha = c.sha := rfl

theorem toRow_author (rid : String) (c : Commit) :
    (toRow rid c).author_email = c.author_email := rfl

theorem toRow_date (rid : String) (c : Commit) :
    (toRow rid c).committed_date = c.committed_date := rfl

theorem toRow_tag (rid : String) (c : Commit) :
    (toRow rid c).raw_data_params = rid := rfl

theorem filter_self_filter (p : α → Bool) (l : List α) :
    (l.filter p).filter p = l.filter p := by
  rw [List.filter_filter]
  exact List.filter_congr (fun x _ => Bool.and_self _)

/-- Normal form of the insert loop: the start rows whose shas are untouched,
in order, followed by the rows the loop inserts from `logs` alone. -/
theorem foldl_upsert_normal (rid : String) :
    ∀ (logs : List Commit) (s : List Row),
      logs.foldl (upsertStep rid) s =
        s.filter (shaNotIn logs) ++ logs.foldl (upsertStep rid) [] := by
  intro logs
  induction logs with
  | nil =>
    intro s
    rw [List.foldl_nil, List.foldl_nil, List.append_nil]
    exact (List.filter_eq_self.mpr (fun a _ => by simp [shaNotIn])).symm
  | cons c cs ih =>
    intro s
    rw [List.foldl_cons, ih]
    conv_rhs => rw [List.foldl_cons, ih]
    have hstep : upsertStep rid [] c = [toRow rid c] := rfl
    rw [hstep, upsertStep, upsertRow, List.filter_append, List.append_assoc]
    congr 1
    rw [List.filter_filter]
    apply List.filter_congr
    intro x _
    show (shaNotIn cs x && decide (x.sha ≠ (toRow rid c).sha)) = shaNotIn (c :: cs) x
    simp only [shaNotIn, List.all_cons, toRow_sha]
    exact Bool.and_comm _ _

/-- Every row the insert loop creates comes from a commit of `logs`. -/
theorem mem_foldl_upsert_nil (rid : String) :
    ∀ (logs : List Commit) (r : Row),
      r ∈ logs.foldl (upsertStep rid) [] → ∃ c ∈ logs, r = toRow rid c := by
  intro logs
  induction logs with
  | nil => simp
  | cons c cs ih =>
    intro r hr
    rw [List.foldl_cons, foldl_upsert_normal] at hr
    rcases List.mem_append.mp hr with hl | hrr
    · have : r ∈ upsertStep rid [] c := (List.mem_filter.mp hl).1
      have : r = toRow rid c := by
        have h1 : upsertStep rid [] c = [toRow rid c] := rfl
        rw [h1] at this
        simpa using this
      exact ⟨c, List.mem_cons_self _ _, this⟩
    · obtain ⟨c', hc', he⟩ := ih r hrr
      exact ⟨c', List.mem_cons_of_mem _ hc', he⟩

theorem tag_of_mem_inserted (rid : String) (logs : List Commit) (r : Row)
    (h : r ∈ logs.foldl (upsertStep rid) []) : r.raw_data_params = rid := by
  obtain ⟨c, _, he⟩ := mem_foldl_upsert_nil rid logs r h
  rw [he]
  rfl

theorem populate_normal (store : List Row) (logs : List Commit) (rid : String) :
    populate_commits_from_log store logs rid =
      ((store.filter (fun r => r.raw_data_params ≠ rid)).filter (shaNotIn logs)) ++
        logs.foldl (upsertStep rid) [] := by
  rw [populate_def, foldl_upsert_normal]

/-! ### C9 — loading twice equals loading once -/

/-- C9: `populate_commits_from_log` is idempotent: loading the same commit
set twice in a row under the same tag leaves the store — literally the same
row list, hence the same row count — as loading it once (delete-then-insert
replaces, it does not append). -/
theorem c9_populate_idempotent (store : List Row) (logs : List Commit)
    (repo_id : String) :
    populate_commits_from_log (populate_commits_from_log store logs repo_id)
      logs repo_id = populate_commits_from_log store logs repo_id := by
  have hfiltered :
      (populate_commits_from_log store logs repo_id).filter
        (fun r => r.raw_data_params ≠ repo_id) =
      (store.filter (fun r => r.raw_data_params ≠ repo_id)).filter
        (shaNotIn logs) := by
    rw [populate_normal, List.filter_append]
    have hk : (logs.foldl (upsertStep repo_id) []).filter
        (fun r => r.raw_data_params ≠ repo_id) = [] := by
      apply List.filter_eq_nil_iff.mpr
      intro r hr
      simp [tag_of_mem_inserted repo_id logs r hr]
    rw [hk, List.append_nil, List.filter_comm, filter_self_filter]
  rw [populate_def (populate_commits_from_log store logs repo_id),
    hfiltered, foldl_upsert_normal, filter_self_filter, ← foldl_upsert_normal,
    ← populate_def]

/-! ### C3 — loading under one tag and the frame of the others

As stated the claim is false: `sha` is the table's PRIMARY KEY and the load
uses `INSERT OR REPLACE`, so loading under tag B a commit whose sha already
exists under tag A replaces (re-tags) A's row.  It holds whenever the loaded
commit ids are disjoint from the shas stored under tag A. -/

def c3CommitA1 : Commit := ⟨"a1", "x", 0, none⟩

def c3CommitA2 : Commit := ⟨"a2", "x", 600, none⟩

/-- A tag-B commit sharing sha `"a1"` with tag A's first commit. -/
def c3CommitB : Commit := ⟨"a1", "y", 0, none⟩

def c3StoreA : List Row := populate_commits_from_log [] [c3CommitA1, c3CommitA2] "A"

/-- C3 counterexample: loading `[c3CommitB]` under tag `"B"` re-tags the
stored row with sha `"a1"`, so tag `"A"`'s rows change and `query_deltas` for
tag `"A"` returns a different result than before the load. -/
theorem c3_shared_sha_counterexample :
    rowsWithTag "A" (populate_commits_from_log c3StoreA [c3CommitB] "B") ≠
      rowsWithTag "A" c3StoreA ∧
    query_deltas (populate_commits_from_log c3StoreA [c3CommitB] "B") "A" ≠
      query_deltas c3StoreA "A" := by
  constructor
  · decide
  · decide

/-- C3 (amended): for distinct tags A ≠ B, loading under B a commit set none
of whose ids (shas) collide with a row stored under tag A leaves tag A's rows
unchanged, so every query for tag A returns the same result before and after
the load. -/
theorem c3_amended_frame (store : List Row) (logs : List Commit)
    (tagA tagB : String) (bucket_size : ℕ) (hAB : tagA ≠ tagB)
    (hdisj : ∀ r ∈ store, r.raw_data_params = tagA →
      ∀ c ∈ logs, c.sha ≠ r.sha) :
    rowsWithTag tagA (populate_commits_from_log store logs tagB) =
      rowsWithTag tagA store ∧
    query_deltas (populate_commits_from_log store logs tagB) tagA =
      query_deltas store tagA ∧
    query_fixed_bucket_stats_pure_sql (populate_commits_from_log store logs tagB)
      bucket_size tagA = query_fixed_bucket_stats_pure_sql store bucket_size tagA ∧
    query_by_month_stats_pure_sql (populate_commits_from_log store logs tagB)
      tagA = query_by_month_stats_pure_sql store tagA ∧
    query_change_failure_by_month_sql (populate_commits_from_log store logs tagB)
      tagA = query_change_failure_by_month_sql store tagA := by
  have h0 : rowsWithTag tagA (populate_commits_from_log store logs tagB) =
      rowsWithTag tagA store := by
    rw [rowsWithTag, populate_normal, List.filter_append]
    have hk : (logs.foldl (upsertStep tagB) []).filter
        (fun r => r.raw_data_params = tagA) = [] := by
      apply List.filter_eq_nil_iff.mpr
      intro r hr
      simp [tag_of_mem_inserted tagB logs r hr, (Ne.symm hAB)]
    rw [hk, List.append_nil, List.filter_filter, List.filter_filter]
    apply List.filter_congr
    intro r hr
    by_cases hA : r.raw_data_params = tagA
    · have hsha : shaNotIn logs r = true :=
        List.all_eq_true.mpr (fun c hc => by
          simpa using Ne.symm (hdisj r hr hA c hc))
      simp [hA, hsha, hAB]
    · simp [hA]
  refine ⟨h0, ?_, ?_, ?_, ?_⟩
  · unfold query_deltas
    rw [h0]
  · unfold query_fixed_bucket_stats_pure_sql fixedKept fixedChunks
    rw [h0]
  · unfold query_by_month_stats_pure_sql
    rw [h0]
  · unfold query_change_failure_by_month_sql
    rw [h0]

def c3CommitB2 : Commit := ⟨"b1", "y", 0, none⟩

theorem c3_amended_witness :
    ("A" : String) ≠ "B" ∧
    (∀ r ∈ c3StoreA, r.raw_data_params = "A" →
      ∀ c ∈ [c3CommitB2], c.sha ≠ r.sha) ∧
    query_deltas (populate_commits_from_log c3StoreA [c3CommitB2] "B") "A" =
      query_deltas c3StoreA "A" :=
  ⟨by decide, by decide,
    (c3_amended_frame c3StoreA [c3CommitB2] "A" "B" 4 (by decide) (by decide)).2.1⟩

/-! ### C1 — the in-memory and relational delta paths agree when no author
has duplicate timestamps -/

theorem charListLe_total : ∀ x y : List Char,
    charListLe x y = true ∨ charListLe y x = true := by
  intro x
  induction x with
  | nil => intro y; left; rfl
  | cons a as ih =>
    intro y
    cases y with
    | nil => right; rfl
    | cons b bs =>
      rcases lt_trichotomy a b with h | h | h
      · left; simp [charListLe, h]
      · subst h
        rcases ih bs with h2 | h2
        · left; simp [charListLe, h2]
        · right; simp [charListLe, h2]
      · right; simp [charListLe, h]

theorem charListLe_trans : ∀ x y z : List Char, charListLe x y = true →
    charListLe y z = true → charListLe x z = true := by
  intro x
  induction x with
  | nil => intro y z _ _; rfl
  | cons a as ih =>
    intro y z hxy hyz
    cases y with
    | nil => simp [charListLe] at hxy
    | cons b bs =>
      cases z with
      | nil => simp [charListLe] at hyz
      | cons c cs =>
        simp only [charListLe, Bool.or_eq_true, Bool.and_eq_true,
          decide_eq_true_eq] at hxy hyz ⊢
        rcases hxy with h1 | ⟨h1, h1'⟩
        · rcases hyz with h2 | ⟨h2, h2'⟩
          · exact Or.inl (lt_trans h1 h2)
          · exact Or.inl (lt_of_lt_of_eq h1 h2)
        · rcases hyz with h2 | ⟨h2, h2'⟩
          · exact Or.inl (lt_of_eq_of_lt h1 h2)
          · exact Or.inr ⟨h1.trans h2, ih bs cs h1' h2'⟩

theorem rowLeB_iff (a b : Row) : rowLeB a b = true ↔
    (a.committed_date < b.committed_date ∨
      (a.committed_date = b.committed_date ∧
        charListLe a.sha.data b.sha.data = true)) := by
  simp [rowLeB, Bool.or_eq_true, Bool.and_eq_true, decide_eq_true_eq]

instance : IsTotal Row (fun a b => rowLeB a b = true) := ⟨by
  intro a b
  rw [rowLeB_iff, rowLeB_iff]
  rcases lt_trichotomy a.committed_date b.committed_date with h | h | h
  · exact Or.inl (Or.inl h)
  · rcases charListLe_total a.sha.data b.sha.data with h2 | h2
    · exact Or.inl (Or.inr ⟨h, h2⟩)
    · exact Or.inr (Or.inr ⟨h.symm, h2⟩)
  · exact Or.inr (Or.inl h)⟩

instance : IsTrans Row (fun a b => rowLeB a b = true) := ⟨by
  intro a b c hab hbc
  rw [rowLeB_iff] at hab hbc ⊢
  rcases hab with h1 | ⟨h1, h1'⟩ <;> rcases hbc with h2 | ⟨h2, h2'⟩
  · exact Or.inl (lt_trans h1 h2)
  · exact Or.inl (lt_of_lt_of_eq h1 h2)
  · exact Or.inl (lt_of_eq_of_lt h1 h2)
  · exact Or.inr ⟨h1.trans h2, charListLe_trans _ _ _ h1' h2'⟩⟩

instance : IsTotal Commit (fun a b => cLeB a b = true) := ⟨by
  intro a b
  simp only [cLeB, decide_eq_true_eq]
  exact le_total _ _⟩

instance : IsTrans Commit (fun a b => cLeB a b = true) := ⟨by
  intro a b c hab hbc
  simp only [cLeB, decide_eq_true_eq] at hab hbc ⊢
  exact le_trans hab hbc⟩

/-- Loading `logs` with distinct shas into an empty store yields exactly the
rows of `logs`, in order. -/
theorem inserted_eq_map (rid : String) : ∀ (logs : List Commit),
    (logs.map (fun c => c.sha)).Nodup →
    logs.foldl (upsertStep rid) [] = logs.map (toRow rid) := by
  intro logs
  induction logs with
  | nil => intro _; rfl
  | cons c cs ih =>
    intro h
    rw [List.map_cons] at h
    have hnd := List.nodup_cons.mp h
    rw [List.foldl_cons, foldl_upsert_normal]
    have hstep : upsertStep rid [] c = [toRow rid c] := rfl
    rw [hstep]
    have hfilter : ([toRow rid c] : List Row).filter (shaNotIn cs) = [toRow rid c] := by
      apply List.filter_eq_self.mpr
      intro r hr
      have hrc : r = toRow rid c := by simpa using hr
      subst hrc
      apply List.all_eq_true.mpr
      intro c' hc'
      simp only [toRow_sha, decide_eq_true_eq]
      intro he
      exact hnd.1 (he ▸ List.mem_map_of_mem (fun x => x.sha) hc')
    rw [hfilter, List.map_cons, ih hnd.2]
    rfl

theorem populate_nil_eq_map (rid : String) (logs : List Commit)
    (h : (logs.map (fun c => c.sha)).Nodup) :
    populate_commits_from_log [] logs rid = logs.map (toRow rid) := by
  rw [populate_def, List.filter_nil, inserted_eq_map rid logs h]

/-- In a commit list with pairwise-distinct timestamps, sorting the rows by
`(committed_date, sha)` equals sorting the commits by `committed_date`:
both are the unique date-strictly-sorted permutation. -/
theorem sortRows_map_toRow (rid : String) (s : List Commit)
    (hnd : List.Pairwise (fun c1 c2 => c1.committed_date ≠ c2.committed_date) s) :
    sortRows (s.map (toRow rid)) =
      (List.insertionSort (fun c1 c2 => cLeB c1 c2 = true) s).map (toRow rid) := by
  haveI : IsAntisymm Row (fun r1 r2 : Row =>
      r1.committed_date < r2.committed_date) :=
    ⟨fun a b h1 h2 => absurd h2 (not_lt.mpr h1.le)⟩
  apply List.eq_of_perm_of_sorted
    (r := fun r1 r2 : Row => r1.committed_date < r2.committed_date)
  · exact (List.perm_insertionSort _ _).trans
      ((List.perm_insertionSort _ s).map (toRow rid)).symm
  · have hsorted : List.Sorted (fun a b => rowLeB a b = true)
        (sortRows (s.map (toRow rid))) := List.sorted_insertionSort _ _
    have h1 : List.Pairwise (fun r1 r2 : Row =>
        r1.committed_date ≠ r2.committed_date) (s.map (toRow rid)) := by
      rw [List.pairwise_map]
      exact hnd
    have hne : List.Pairwise (fun r1 r2 : Row =>
        r1.committed_date ≠ r2.committed_date) (sortRows (s.map (toRow rid))) :=
      (List.Perm.pairwise_iff (fun h => h.symm)
        (List.perm_insertionSort _ _)).mpr h1
    refine (hsorted.and hne).imp ?_
    rintro a b ⟨hle, hneq⟩
    rcases (rowLeB_iff a b).mp hle with h | ⟨h, _⟩
    · exact h
    · exact absurd h hneq
  · have hsorted : List.Sorted (fun a b => cLeB a b = true)
        (List.insertionSort (fun c1 c2 => cLeB c1 c2 = true) s) :=
      List.sorted_insertionSort _ _
    have hne : List.Pairwise (fun c1 c2 : Commit =>
        c1.committed_date ≠ c2.committed_date)
        (List.insertionSort (fun c1 c2 => cLeB c1 c2 = true) s) :=
      (List.Perm.pairwise_iff (fun h => h.symm)
        (List.perm_insertionSort _ _)).mpr hnd
    rw [List.Sorted, List.pairwise_map]
    refine (hsorted.and hne).imp ?_
    rintro a b ⟨hle, hneq⟩
    have hab : a.committed_date ≤ b.committed_date := by
      simpa [cLeB] using hle
    exact lt_of_le_of_ne hab hneq

/-- Re-rounding the relational deltas of a row partition yields exactly the
in-memory pairs of the commit partition. -/
theorem lagDeltas_map_pairs (rid : String) : ∀ s : List Commit,
    (lagDeltas (s.map (toRow rid))).map
      (fun d => (d.committed_date, round2 d.cycle_minutes)) = lagPairs s := by
  intro s
  induction s with
  | nil => rfl
  | cons a t ih =>
    cases t with
    | nil => rfl
    | cons b rest =>
      rw [List.map_cons, List.map_cons, lagDeltas, List.map_cons, lagPairs,
        ← List.map_cons, ih]
      simp [toRow_date, deltaMinutes_round2]

theorem authorsOf_map_toRow (rid : String) (logs : List Commit) :
    authorsOf (logs.map (toRow rid)) = (logs.map (fun c => c.author_email)).dedup := by
  rw [authorsOf, List.map_map]
  rfl

theorem filter_author_map_toRow (rid : String) (logs : List Commit) (a : String) :
    (logs.map (toRow rid)).filter (fun r => r.author_email = a) =
      (logs.filter (fun c => c.author_email = a)).map (toRow rid) := by
  rw [List.filter_map]
  rfl

/-- With distinct shas and no same-author duplicate timestamps, the relational
`query_deltas` over a freshly loaded store equals the in-memory
`calculate_time_deltas` exactly. -/
theorem query_deltas_eq_calculate (logs : List Commit) (rid : String)
    (h1 : (logs.map (fun c => c.sha)).Nodup)
    (h2 : List.Pairwise (fun c1 c2 => c1.author_email = c2.author_email →
      c1.committed_date ≠ c2.committed_date) logs) :
    query_deltas (populate_commits_from_log [] logs rid) rid =
      calculate_time_deltas logs := by
  have hrows : rowsWithTag rid (populate_commits_from_log [] logs rid) =
      logs.map (toRow rid) := by
    rw [populate_nil_eq_map rid logs h1, rowsWithTag]
    apply List.filter_eq_self.mpr
    intro r hr
    obtain ⟨c, _, hc⟩ := List.mem_map.mp hr
    simp [← hc, toRow_tag]
  unfold query_deltas deltasCTE
  rw [hrows, authorsOf_map_toRow, List.map_flatMap]
  unfold calculate_time_deltas
  apply congrArg
  funext a
  rw [filter_author_map_toRow]
  have hnd : List.Pairwise (fun c1 c2 : Commit =>
      c1.committed_date ≠ c2.committed_date)
      (logs.filter (fun c => c.author_email = a)) := by
    apply List.pairwise_filter.mpr
    exact h2.imp (fun {x y} h hx hy => h (hx.trans hy.symm))
  rw [sortRows_map_toRow rid _ hnd]
  exact lagDeltas_map_pairs rid _

/-- C1: for commit sets in which no two same-author commits share a timestamp
(and with the distinct shas git guarantees), the in-memory and relational
Delta sequences, sorted by `(timestamp, minutes)`, are equal position-wise:
timestamps equal exactly, minutes within 0.01 (indeed equal). -/
theorem c1_dual_path_delta_refinement (logs : List Commit) (repo_id : String)
    (h1 : (logs.map (fun c => c.sha)).Nodup)
    (h2 : List.Pairwise (fun c1 c2 => c1.author_email = c2.author_email →
      c1.committed_date ≠ c2.committed_date) logs) :
    (sortPairs (calculate_time_deltas logs)).length =
      (sortPairs (query_deltas (populate_commits_from_log [] logs repo_id)
        repo_id)).length ∧
    ∀ (i : ℕ)
      (hp : i < (sortPairs (calculate_time_deltas logs)).length)
      (hq : i < (sortPairs (query_deltas
        (populate_commits_from_log [] logs repo_id) repo_id)).length),
      ((sortPairs (calculate_time_deltas logs)).get ⟨i, hp⟩).1 =
        ((sortPairs (query_deltas (populate_commits_from_log [] logs repo_id)
          repo_id)).get ⟨i, hq⟩).1 ∧
      |((sortPairs (calculate_time_deltas logs)).get ⟨i, hp⟩).2 -
        ((sortPairs (query_deltas (populate_commits_from_log [] logs repo_id)
          repo_id)).get ⟨i, hq⟩).2| < 1 / 100 := by
  have heq := query_deltas_eq_calculate logs repo_id h1 h2
  rw [heq]
  exact ⟨rfl, fun i hp hq => ⟨rfl, by rw [sub_self, abs_zero]; norm_num⟩⟩

def c1Commits : List Commit :=
  [⟨"w1", "alice", 0, none⟩, ⟨"w2", "alice", 600, none⟩,
   ⟨"w3", "bob", 300, none⟩, ⟨"w4", "bob", 1500, none⟩]

theorem c1_refinement_witness :
    (c1Commits.map (fun c => c.sha)).Nodup ∧
    List.Pairwise (fun c1 c2 => c1.author_email = c2.author_email →
      c1.committed_date ≠ c2.committed_date) c1Commits ∧
    (sortPairs (calculate_time_deltas c1Commits)).length =
      (sortPairs (query_deltas (populate_commits_from_log [] c1Commits "r")
        "r")).length ∧
    sortPairs (query_deltas (populate_commits_from_log [] c1Commits "r") "r") =
      [(600, (10 : ℚ)), (1500, 20)] :=
  ⟨by decide, by decide,
    (c1_dual_path_delta_refinement c1Commits "r" (by decide) (by decide)).1,
    by decide⟩

end GitCalc
